import Mathlib

/-!
Verification of the tycho-simulation repository's VM pool state and cached
EVM state backend against its natural-language specification.

The development shallowly embeds the Rust source:

* `src/src/protocol/vm/state.rs` — `VMPoolState` with `set_capabilities`,
  `set_spot_prices`, `get_amount_out`, `ensure_capability`, and the
  `ProtocolSim::eq` implementation;
* `src/src/evm/protocol/vm/models.rs` — the `Capability` enum;
* `src/protosim/src/evm_simulation/tycho_db.rs` — `TychoDB` with
  `update_state` and the `DatabaseRef::storage` implementation.

Machine integers (`H160` addresses, `U256` words and slot ids) are embedded
as `Nat`: the verified claims only store, look up and compare these values,
so wrap-around arithmetic never arises.  `f64` prices are embedded as `ℚ`:
the verified claims only test prices against zero, invert them and store
them, never relying on rounding.  Hash maps are embedded as association
lists with insert-by-key-replacement, which preserves exactly the
lookup/insert/iteration semantics the source relies on.

The EVM engine and the adapter bytecode are external to the repository: an
adapter call is modelled as an oracle supplied to each operation (the sell
amount limit, the swap result, per-pair capability sets, price samples).
Every claim below is a statement about how the embedded Rust code uses
those oracle answers, quantified over all possible answers.
-/

/-- A 20-byte EVM address, embedded as a natural number. -/
abbrev H160 : Type := Nat

/-- A 256-bit EVM word, embedded as a natural number (the claims only store
and compare words, so modular wrap-around never arises). -/
abbrev U256 : Type := Nat

/-- A 256-bit storage slot index. -/
abbrev SlotId : Type := Nat

/-- An association list standing in for Rust's `HashMap`.  `insert` replaces
any previous binding of the key, mirroring `HashMap::insert`. -/
abbrev AssocMap (κ ν : Type) : Type := List (κ × ν)

namespace AssocMap

/-- The empty map (`HashMap::new`). -/
def empty {κ ν : Type} : AssocMap κ ν := []

/-- Lookup by key (`HashMap::get`). -/
def lookup {κ ν : Type} [DecidableEq κ] (m : AssocMap κ ν) (k : κ) : Option ν :=
  (m.find? (fun p => decide (p.1 = k))).map (fun p => p.2)

/-- Insert, replacing any previous binding of `k` (`HashMap::insert`). -/
def insert {κ ν : Type} [DecidableEq κ] : AssocMap κ ν → κ → ν → AssocMap κ ν
  | [], k, v => [(k, v)]
  | hd :: tl, k, v => if hd.1 = k then (k, v) :: tl else hd :: insert tl k v

end AssocMap

/-- The `Capability` enum of `src/src/evm/protocol/vm/models.rs`, wire values
1–9. -/
inductive Capability where
  | SellSide
  | BuySide
  | PriceFunction
  | FeeOnTransfer
  | ConstantPrice
  | TokenBalanceIndependent
  | ScaledPrice
  | HardLimits
  | MarginalPrice
deriving DecidableEq

/-- The variant name, as produced by the strum `Display` derive used by
`Capability.to_string()` in the source. -/
def capabilityName : Capability → String
  | Capability.SellSide => "SellSide"
  | Capability.BuySide => "BuySide"
  | Capability.PriceFunction => "PriceFunction"
  | Capability.FeeOnTransfer => "FeeOnTransfer"
  | Capability.ConstantPrice => "ConstantPrice"
  | Capability.TokenBalanceIndependent => "TokenBalanceIndependent"
  | Capability.ScaledPrice => "ScaledPrice"
  | Capability.HardLimits => "HardLimits"
  | Capability.MarginalPrice => "MarginalPrice"

/-- The `SimulationError` variants of `crate::protocol::errors` reachable
from the embedded operations.  Note that `sellAmountTooHigh` carries no
payload: in `state.rs` the partial result fields are commented out
(`SellAmountTooHigh()` is constructed with no arguments). -/
inductive SimulationError where
  | notFound (what : String)
  | notInitialized (what : String)
  | decodingError (what : String)
  | sellAmountTooHigh
deriving DecidableEq

/-- The `ERC20Token` model (`crate::models::ERC20Token`): address, decimals,
symbol and gas usage. -/
structure ERC20Token where
  address : H160
  decimals : Nat
  symbol : String
  gasUsage : U256
deriving DecidableEq

/-- Per-contract storage overwrites: slot → word
(`Overwrites = HashMap<U256, U256>` in the source). -/
abbrev Overwrites : Type := AssocMap SlotId U256

/-- The `VMPoolState` struct of `src/src/protocol/vm/state.rs`.  The
`engine` and `adapter_contract` fields hold external machinery (the EVM
interpreter and the adapter bytecode client) and are modelled as oracles
passed to each operation instead; `stateless_contracts` and
`token_storage_slots` only feed those oracles.  The block header is reduced
to its number, the only header field the embedded operations read. -/
structure VMPoolState where
  id : String
  tokens : List H160
  blockNumber : Nat
  balances : AssocMap H160 U256
  balanceOwner : Option H160
  spotPrices : AssocMap (H160 × H160) ℚ
  capabilities : Finset Capability
  blockLastingOverwrites : AssocMap H160 Overwrites
  involvedContracts : List H160
  tokenStorageSlots : AssocMap H160 (SlotId × SlotId)
  manualUpdates : Bool
  trace : Bool
deriving DecidableEq

/-- The trade summary decoded from the adapter's `swap` reply:
`received_amount`, `gas_used` and the reported `price` (an `f64` in the
source, embedded as `ℚ`). -/
structure Trade where
  receivedAmount : U256
  gasUsed : U256
  price : ℚ
deriving DecidableEq

/-- The state changes reported by `swap`: for each touched address, an
optional storage diff (`StateUpdate.storage` is an `Option<HashMap<..>>` in
the source). -/
abbrev SwapStateChanges : Type := List (H160 × Option (List (SlotId × U256)))

/-- The adapter contract as seen by `get_amount_out`, reduced to the two
answers the embedded code consumes: the sell amount limit returned by
`getLimits` (via `get_sell_amount_limit`) and the `swap` reply as a function
of the sell amount actually passed to it.  Overwrite maps handed to the
adapter only influence these answers and are absorbed into the oracle. -/
structure AdapterContract where
  sellAmountLimit : U256
  swap : U256 → Trade × SwapStateChanges

/-- The `GetAmountOutResult` returned by `VMPoolState::get_amount_out`:
buy amount, gas used and the new (copy-on-write) pool state. -/
structure GetAmountOutResult where
  amount : U256
  gas : U256
  newState : VMPoolState
deriving DecidableEq

deriving instance DecidableEq for Except

/-- The clamping step of `get_amount_out` (state.rs lines 554–575): returns
`(sell_amount_respecting_limit, sell_amount_exceeds_limit)`.  The amount is
clamped to the limit exactly when `HardLimits` is in the capabilities and
the queried limit is strictly below the requested sell amount. -/
def clampToLimit (capabilities : Finset Capability) (sellAmount sellAmountLimit : U256) :
    U256 × Bool :=
  if Capability.HardLimits ∈ capabilities ∧ sellAmountLimit < sellAmount then
    (sellAmountLimit, true)
  else
    (sellAmount, false)

/-- One `(slot, value)` entry of a reported storage diff folded into the
overwrites: `entry(address).or_default().insert(slot, value)` in the
source. -/
def applyStorageEntry (acc : AssocMap H160 Overwrites) (addr : H160) (sv : SlotId × U256) :
    AssocMap H160 Overwrites :=
  AssocMap.insert acc addr
    (AssocMap.insert ((AssocMap.lookup acc addr).getD AssocMap.empty) sv.1 sv.2)

/-- The fold of `swap`'s storage diffs into the cloned state's
`block_lasting_overwrites` (state.rs lines 602–626): for every reported
`(address, slot, value)` the entry map at `address` is created if absent
(`entry(address).or_default()`) and `value` is inserted at `slot`. -/
def applyStateChanges (ow : AssocMap H160 Overwrites) (stateChanges : SwapStateChanges) :
    AssocMap H160 Overwrites :=
  stateChanges.foldl
    (fun acc change =>
      match change.2 with
      | none => acc
      | some storage => storage.foldl (fun acc2 sv => applyStorageEntry acc2 change.1 sv) acc)
    ow

/-- The spot price update of `get_amount_out` (state.rs lines 628–637): when
the trade's price is nonzero, `(sell, buy)` is bound to the price and then
`(buy, sell)` to its reciprocal; a zero price leaves the map untouched. -/
def updateSpotPrices (spotPrices : AssocMap (H160 × H160) ℚ) (sellToken buyToken : H160)
    (newPrice : ℚ) : AssocMap (H160 × H160) ℚ :=
  if newPrice ≠ 0 then
    AssocMap.insert (AssocMap.insert spotPrices (sellToken, buyToken) newPrice)
      (buyToken, sellToken) (1 / newPrice)
  else
    spotPrices

/-- The tail of `get_amount_out` after `swap` has replied (state.rs lines
599–651): clone `self`, fold the storage diffs into the clone, update its
spot prices, then either report `SellAmountTooHigh` (a bare error — the
partial result in the source is commented out) or return the result. -/
def applySwapResult (s : VMPoolState) (sellToken buyToken : H160)
    (sellAmountExceedsLimit : Bool) (swapReply : Trade × SwapStateChanges) :
    Except SimulationError GetAmountOutResult :=
  let trade := swapReply.1
  let newState : VMPoolState :=
    { s with
      blockLastingOverwrites := applyStateChanges s.blockLastingOverwrites swapReply.2
      spotPrices := updateSpotPrices s.spotPrices sellToken buyToken trade.price }
  if sellAmountExceedsLimit then
    Except.error SimulationError.sellAmountTooHigh
  else
    Except.ok { amount := trade.receivedAmount, gas := trade.gasUsed, newState := newState }

/-- `VMPoolState::get_amount_out` (state.rs lines 548–651).  The overwrite
maps built in lines 556–581 are consumed only by the adapter and are
absorbed into the `AdapterContract` oracle; `self` is taken by shared
reference in the source and the new state is built from a clone, which the
embedding reflects by being a pure function of `s`. -/
def getAmountOut (s : VMPoolState) (sellToken : H160) (sellAmount : U256) (buyToken : H160)
    (adapter : AdapterContract) : Except SimulationError GetAmountOutResult :=
  let clamp := clampToLimit s.capabilities sellAmount adapter.sellAmountLimit
  applySwapResult s sellToken buyToken clamp.2 (adapter.swap clamp.1)

/-- The ordered pairs of distinct positions of a list, mirroring itertools'
`tokens.iter().permutations(2)` in `set_capabilities` and
`set_spot_prices`. -/
def orderedPairs {α : Type} (l : List α) : List (α × α) :=
  l.enum.flatMap
    (fun p => l.enum.filterMap (fun q => if p.1 = q.1 then none else some (p.2, q.2)))

/-- `VMPoolState::set_capabilities` (state.rs lines 315–354), with the
adapter's `get_capabilities` answers supplied by the oracle
`getCapabilities`.  Returns the stored capability set together with the
warning flag (`warn!` fires when the intersection is smaller than the
largest per-pair set).  `none` models the source's panic: with fewer than
two tokens the per-pair vector is empty and `capabilities[0]` (the seed of
the intersection fold) indexes out of bounds. -/
def setCapabilities (tokens : List H160)
    (getCapabilities : H160 → H160 → Finset Capability) :
    Option (Finset Capability × Bool) :=
  let capabilities := (orderedPairs tokens).map (fun p => getCapabilities p.1 p.2)
  let maxCapabilities := (capabilities.map Finset.card).foldr max 0
  match capabilities.head? with
  | none => none
  | some first =>
      let commonCapabilities := capabilities.foldl (fun acc cap => acc ∩ cap) first
      some (commonCapabilities, decide (commonCapabilities.card < maxCapabilities))

/-- `VMPoolState::new` (state.rs lines 100–142) up to the parts that touch
the EVM engine: the struct is built with empty spot prices, capabilities and
block-lasting overwrites, then `set_capabilities` fills the capability set.
`none` models the panic propagated from `set_capabilities`. -/
def newVMPoolState (id : String) (tokens : List H160) (blockNumber : Nat)
    (balances : AssocMap H160 U256) (balanceOwner : Option H160)
    (involvedContracts : List H160) (manualUpdates trace : Bool)
    (getCapabilities : H160 → H160 → Finset Capability) : Option VMPoolState :=
  match setCapabilities tokens getCapabilities with
  | none => none
  | some caps =>
      some
        { id := id
          tokens := tokens
          blockNumber := blockNumber
          balances := balances
          balanceOwner := balanceOwner
          spotPrices := AssocMap.empty
          capabilities := caps.1
          blockLastingOverwrites := AssocMap.empty
          involvedContracts := involvedContracts
          tokenStorageSlots := AssocMap.empty
          manualUpdates := manualUpdates
          trace := trace }

/-- `VMPoolState::ensure_capability` (state.rs lines 305–313): an absent
capability yields `SimulationError::NotFound` whose message is
`format!("capability {:?}", capability.to_string())` — the `{:?}` rendering
of the string adds quotes. -/
def ensureCapability (s : VMPoolState) (capability : Capability) :
    Except SimulationError Unit :=
  if capability ∉ s.capabilities then
    Except.error
      (SimulationError.notFound ("capability \"" ++ capabilityName capability ++ "\""))
  else
    Except.ok ()

/-- The adapter answers consumed by `set_spot_prices`: the sell amount limit
(`get_sell_amount_limit`) and the decoded `price` reply (a list of `f64`
samples, embedded as `ℚ`) for each ordered pair, given the sample amount
passed in. -/
structure SpotPriceOracle where
  sellAmountLimit : H160 → H160 → U256
  priceResult : H160 → H160 → U256 → List ℚ

/-- The loop body of `set_spot_prices` over the ordered token pairs: query
the sell limit, call `price` with the single sample `sell_limit / 100`,
decode the first sample (a missing first element is the source's
`DecodingError("Spot price is not a u64")`), scale it by
`10^(sell.decimals) / 10^(buy.decimals)` unless `ScaledPrice` is held, and
insert it at `(sell.address, buy.address)`.  Mirroring `&mut self` with an
early `?` return, the accumulated map at the moment of an error is kept. -/
def setSpotPricesLoop (oracle : SpotPriceOracle) (capabilities : Finset Capability) :
    List (ERC20Token × ERC20Token) → AssocMap (H160 × H160) ℚ →
    AssocMap (H160 × H160) ℚ × Option SimulationError
  | [], spotPrices => (spotPrices, none)
  | (sellToken, buyToken) :: rest, spotPrices =>
      let sellAmountLimit := oracle.sellAmountLimit sellToken.address buyToken.address
      match (oracle.priceResult sellToken.address buyToken.address
          (sellAmountLimit / 100)).head? with
      | none => (spotPrices, some (SimulationError.decodingError "Spot price is not a u64"))
      | some firstSample =>
          let price :=
            if Capability.ScaledPrice ∈ capabilities then firstSample
            else firstSample * (10 : ℚ) ^ sellToken.decimals / (10 : ℚ) ^ buyToken.decimals
          setSpotPricesLoop oracle capabilities rest
            (AssocMap.insert spotPrices (sellToken.address, buyToken.address) price)

/-- `VMPoolState::set_spot_prices` (state.rs lines 356–412).  The method
takes `&mut self` and returns `Result<(), SimulationError>`; the embedding
returns the final state together with the optional error.  The very first
step is `ensure_capability(PriceFunction)`, before any mutation. -/
def setSpotPrices (s : VMPoolState) (tokens : List ERC20Token) (oracle : SpotPriceOracle) :
    VMPoolState × Option SimulationError :=
  match ensureCapability s Capability.PriceFunction with
  | Except.error e => (s, some e)
  | Except.ok _ =>
      let r := setSpotPricesLoop oracle s.capabilities (orderedPairs tokens) s.spotPrices
      ({ s with spotPrices := r.1 }, r.2)

/-- A value implementing the `ProtocolSim` trait, as seen through
`as_any().downcast_ref::<VMPoolState<PreCachedDB>>()`: either a VM pool
state or some other protocol implementation (closed-form pools etc.),
which the downcast rejects. -/
inductive ProtocolSimBox where
  | vmPool (state : VMPoolState)
  | otherProtocol (protocolSystem : String)
deriving DecidableEq

/-- The `ProtocolSim::eq` implementation for `VMPoolState` (state.rs lines
698–707): downcast the other value and compare only the `id` strings;
any non-`VMPoolState` implementor compares unequal. -/
def VMPoolState.protocolEq (s : VMPoolState) (other : ProtocolSimBox) : Bool :=
  match other with
  | ProtocolSimBox.vmPool otherState => decide (s.id = otherState.id)
  | ProtocolSimBox.otherProtocol _ => false

/-- An account record of the cached state backend.  Modelled from the spec:
`account_storage.rs` is not among the repository's files; §3 "Account
record" and §4.1 give the fields (code and its hash are omitted — the
verified claims never read them) and the invariant that a read resolves
transient storage first, then permanent. -/
structure Account where
  balance : U256
  nonce : Nat
  mocked : Bool
  permanentStorage : AssocMap SlotId U256
  transientStorage : AssocMap SlotId U256
deriving DecidableEq

instance : Inhabited Account :=
  ⟨{ balance := 0, nonce := 0, mocked := false,
     permanentStorage := AssocMap.empty, transientStorage := AssocMap.empty }⟩

/-- The per-account delta handed to `update_account` by `update_state`
(`StateUpdate { storage, balance }` in tycho_db.rs; the struct itself lives
in the missing `account_storage.rs`). -/
structure StateUpdate where
  storage : Option (List (SlotId × U256))
  balance : Option U256

/-- Modelled from the spec (§4.1): the `AccountStorage` store of
`account_storage.rs`, a mapping from address to account record. -/
structure AccountStorage where
  accounts : AssocMap H160 Account
deriving DecidableEq

/-- Modelled from the spec (§4.1): `get_account_info(addr)` returns the
account record or absence. -/
def AccountStorage.getAccountInfo (st : AccountStorage) (addr : H160) : Option Account :=
  AssocMap.lookup st.accounts addr

/-- Modelled from the spec (§4.1): `get_storage(addr, slot)` resolves the
transient storage first, then the permanent storage; absence at both levels
(or an unknown account) is `none`. -/
def AccountStorage.getStorage (st : AccountStorage) (addr : H160) (slot : SlotId) :
    Option U256 :=
  match AssocMap.lookup st.accounts addr with
  | none => none
  | some acc =>
      match AssocMap.lookup acc.transientStorage slot with
      | some v => some v
      | none => AssocMap.lookup acc.permanentStorage slot

/-- Modelled from the spec (§4.1): `is_mocked(addr)` returns the account's
mocked flag, or absence for an unknown account. -/
def AccountStorage.isMockedAccount (st : AccountStorage) (addr : H160) : Option Bool :=
  (AssocMap.lookup st.accounts addr).map (fun acc => acc.mocked)

/-- Modelled from the spec (§4.1): `update_account(addr, delta)` applies the
delta's slots to the transient storage and its balance to the account,
creating the account with defaults when unknown. -/
def AccountStorage.updateAccount (st : AccountStorage) (addr : H160) (upd : StateUpdate) :
    AccountStorage :=
  let acc := (AssocMap.lookup st.accounts addr).getD default
  let acc1 :=
    match upd.storage with
    | some slots =>
        { acc with
          transientStorage :=
            slots.foldl (fun m kv => AssocMap.insert m kv.1 kv.2) acc.transientStorage }
    | none => acc
  let acc2 :=
    match upd.balance with
    | some b => { acc1 with balance := b }
    | none => acc1
  { accounts := AssocMap.insert st.accounts addr acc2 }

/-- A block of `tycho_models.rs` (not among the repository's files), reduced
to the fields `update_state` and `block_hash` read. -/
structure Block where
  number : Nat
  hash : Nat
deriving DecidableEq

/-- The per-account part of a `BlockStateChanges` (`AccountUpdate` in the
missing `tycho_models.rs`): optional slots and balance, as the test in
tycho_db.rs constructs them. -/
structure AccountUpdate where
  slots : Option (List (SlotId × U256))
  balance : Option U256

/-- `BlockStateChanges`: the block and the account updates
(`HashMap<B160, AccountUpdate>`, embedded as an association list whose keys
are unique, as for any Rust `HashMap`). -/
structure BlockStateChanges where
  block : Block
  accountUpdates : List (H160 × AccountUpdate)

/-- The `TychoDB` struct of tycho_db.rs: the cached account storage and the
optional current block. -/
structure TychoDB where
  accountStorage : AccountStorage
  block : Option Block

/-- The `TychoDBError` enum of tycho_db.rs. -/
inductive TychoDBError where
  | missingAccount (addr : H160)
  | missingSlot (addr : H160) (slot : SlotId)
  | missingMockedSlot (addr : H160) (slot : SlotId)
  | blockNotSet
deriving DecidableEq

/-- `TychoDB::update_state` (tycho_db.rs lines 79–90): set the current block
to the delta's block, then apply each account update (its slots and
balance) through `update_account`. -/
def TychoDB.updateState (db : TychoDB) (newState : BlockStateChanges) : TychoDB :=
  { block := some newState.block
    accountStorage :=
      newState.accountUpdates.foldl
        (fun st au =>
          st.updateAccount au.1 { storage := au.2.slots, balance := au.2.balance })
        db.accountStorage }

/-- `DatabaseRef::storage` for `TychoDB` (tycho_db.rs lines 131–157): a
locally present value is returned; otherwise a mocked account yields
`MissingMockedSlot` and any other account (non-mocked or unknown) yields
`MissingSlot`. -/
def TychoDB.storage (db : TychoDB) (address : H160) (index : SlotId) :
    Except TychoDBError U256 :=
  let isMocked := db.accountStorage.isMockedAccount address
  match db.accountStorage.getStorage address index with
  | some storageValue => Except.ok storageValue
  | none =>
      match isMocked with
      | some true => Except.error (TychoDBError.missingMockedSlot address index)
      | _ => Except.error (TychoDBError.missingSlot address index)

/-- The value a list of account updates assigns to `(addr, slot)`, when
any. -/
def updatesSlotValue (us : List (H160 × AccountUpdate)) (addr : H160) (slot : SlotId) :
    Option U256 :=
  match (us.find? (fun p => decide (p.1 = addr))).map (fun p => p.2) with
  | none => none
  | some upd =>
      match upd.slots with
      | none => none
      | some slots => AssocMap.lookup slots slot

/-- The value a block delta assigns to `(addr, slot)`, when any:
`delta.account_updates[addr].slots[slot]`. -/
def deltaSlotValue (delta : BlockStateChanges) (addr : H160) (slot : SlotId) :
    Option U256 :=
  updatesSlotValue delta.accountUpdates addr slot

/-- The value held by a nested overwrite map at `(addr, slot)`. -/
def lookupOverwrite (ow : AssocMap H160 Overwrites) (addr : H160) (slot : SlotId) :
    Option U256 :=
  match AssocMap.lookup ow addr with
  | none => none
  | some inner => AssocMap.lookup inner slot

/-- The storage diff reported by `swap` mentions `(addr, slot)`. -/
def diffHasKey (stateChanges : SwapStateChanges) (addr : H160) (slot : SlotId) : Prop :=
  ∃ change ∈ stateChanges, change.1 = addr ∧
    ∃ storage, change.2 = some storage ∧ ∃ v, (slot, v) ∈ storage

/-- A base pool state for concrete evaluations: two tokens, no capabilities,
no accumulated overwrites. -/
def basePool : VMPoolState :=
  { id := "0xdeadbeef"
    tokens := [1, 2]
    blockNumber := 100
    balances := [(1, 50), (2, 60)]
    balanceOwner := none
    spotPrices := AssocMap.empty
    capabilities := ∅
    blockLastingOverwrites := AssocMap.empty
    involvedContracts := []
    tokenStorageSlots := AssocMap.empty
    manualUpdates := false
    trace := false }

/-- A pool holding `HardLimits`, for exercising the clamping path. -/
def hardLimitsPool : VMPoolState :=
  { basePool with capabilities := {Capability.HardLimits} }

/-- An adapter whose sell limit is 5 and whose swap reports no storage diff
and a zero price. -/
def smallLimitAdapter : AdapterContract :=
  { sellAmountLimit := 5
    swap := fun _ => ({ receivedAmount := 3, gasUsed := 2, price := 0 }, []) }

/-- A pool that already carries the overwrite `5 ↦ (7 ↦ 9)`. -/
def overwrittenPool : VMPoolState :=
  { basePool with blockLastingOverwrites := [(5, [(7, 9)])] }

/-- An adapter whose swap reports exactly the storage diff `5 ↦ (7 ↦ 9)` —
an entry the pool `overwrittenPool` already holds with the same value. -/
def rewritingAdapter : AdapterContract :=
  { sellAmountLimit := 1000
    swap := fun _ => ({ receivedAmount := 3, gasUsed := 2, price := 0 }, [(5, some [(7, 9)])]) }

/-- An adapter whose swap reports the price 2 and no storage diff. -/
def pricedAdapter : AdapterContract :=
  { sellAmountLimit := 1000
    swap := fun _ => ({ receivedAmount := 3, gasUsed := 2, price := 2 }, []) }

/-- The result `get_amount_out` builds for `basePool`, sell token 1, buy
token 2 and `pricedAdapter` (price 2, no storage diff). -/
def pricedResult : GetAmountOutResult :=
  { amount := 3
    gas := 2
    newState :=
      { basePool with spotPrices := [((1, 2), (2 : ℚ)), ((2, 1), (1 : ℚ) / 2)] } }

/-- A capability oracle answering `{SellSide}` for every pair. -/
def constantCapsOracle : H160 → H160 → Finset Capability :=
  fun _ _ => {Capability.SellSide}

/-- A spot-price oracle answering limit 400 and the single sample 3 for
every pair. -/
def constantSpotOracle : SpotPriceOracle :=
  { sellAmountLimit := fun _ _ => 400
    priceResult := fun _ _ _ => [3] }

/-- A cached DB holding one mocked account (address 11, no storage) and one
non-mocked account (address 12, permanent slot 7 ↦ 9). -/
def mixedDB : TychoDB :=
  { accountStorage :=
      { accounts :=
          [(11, { balance := 0, nonce := 0, mocked := true,
                  permanentStorage := AssocMap.empty, transientStorage := AssocMap.empty }),
           (12, { balance := 0, nonce := 0, mocked := false,
                  permanentStorage := [(7, 9)], transientStorage := AssocMap.empty })] }
    block := none }

/-- A block delta for `mixedDB`: block 5, updating slot 3 of account 12 to
42 and its balance to 1000. -/
def sampleDelta : BlockStateChanges :=
  { block := { number := 5, hash := 77 }
    accountUpdates := [(12, { slots := some [(3, 42)], balance := some 1000 })] }

theorem AssocMap.lookup_nil {κ ν : Type} [DecidableEq κ] (k : κ) :
    AssocMap.lookup ([] : AssocMap κ ν) k = none := rfl

theorem AssocMap.lookup_cons {κ ν : Type} [DecidableEq κ] (hd : κ × ν) (tl : AssocMap κ ν)
    (k : κ) :
    AssocMap.lookup (hd :: tl) k = if hd.1 = k then some hd.2 else AssocMap.lookup tl k := by
  by_cases h : hd.1 = k <;> simp [AssocMap.lookup, List.find?_cons, h]

theorem AssocMap.lookup_insert_self {κ ν : Type} [DecidableEq κ] (m : AssocMap κ ν) (k : κ)
    (v : ν) : AssocMap.lookup (AssocMap.insert m k v) k = some v := by
  induction m with
  | nil => simp [AssocMap.insert, AssocMap.lookup_cons]
  | cons hd tl ih =>
      by_cases hhd : hd.1 = k
      · simp [AssocMap.insert, hhd, AssocMap.lookup_cons]
      · simp [AssocMap.insert, hhd, AssocMap.lookup_cons, ih]

theorem AssocMap.lookup_insert_ne {κ ν : Type} [DecidableEq κ] (m : AssocMap κ ν)
    (k k' : κ) (v : ν) (h : k' ≠ k) :
    AssocMap.lookup (AssocMap.insert m k v) k' = AssocMap.lookup m k' := by
  have hne : k ≠ k' := fun e => h e.symm
  induction m with
  | nil => simp [AssocMap.insert, AssocMap.lookup_cons, hne, AssocMap.lookup_nil]
  | cons hd tl ih =>
      by_cases hhd : hd.1 = k
      · have hdk : hd.1 ≠ k' := fun e => h (e.symm.trans hhd)
        simp [AssocMap.insert, hhd, AssocMap.lookup_cons, hne, hdk]
      · rw [show AssocMap.insert (hd :: tl) k v = hd :: AssocMap.insert tl k v from by
            simp [AssocMap.insert, hhd]]
        rw [AssocMap.lookup_cons, AssocMap.lookup_cons, ih]

theorem AssocMap.lookup_insert {κ ν : Type} [DecidableEq κ] (m : AssocMap κ ν)
    (k k' : κ) (v : ν) :
    AssocMap.lookup (AssocMap.insert m k v) k' =
      if k = k' then some v else AssocMap.lookup m k' := by
  by_cases h : k = k'
  · rw [if_pos h, h, AssocMap.lookup_insert_self]
  · rw [if_neg h, AssocMap.lookup_insert_ne m k k' v (fun e => h e.symm)]

theorem AssocMap.lookup_eq_none {κ ν : Type} [DecidableEq κ] (m : AssocMap κ ν) (k : κ)
    (h : k ∉ m.map Prod.fst) : AssocMap.lookup m k = none := by
  induction m with
  | nil => rfl
  | cons hd tl ih =>
      have h1 : hd.1 ≠ k := by
        intro e
        exact h (by rw [List.map_cons, e]; exact List.mem_cons_self k _)
      have h2 : k ∉ tl.map Prod.fst := by
        intro hm
        exact h (by rw [List.map_cons]; exact List.mem_cons_of_mem _ hm)
      rw [AssocMap.lookup_cons, if_neg h1, ih h2]

theorem AssocMap.lookup_foldl_insert {κ ν : Type} [DecidableEq κ] (l : List (κ × ν))
    (m : AssocMap κ ν) (k : κ) (h : (l.map Prod.fst).Nodup) :
    AssocMap.lookup (l.foldl (fun acc kv => AssocMap.insert acc kv.1 kv.2) m) k =
      match AssocMap.lookup l k with
      | some v => some v
      | none => AssocMap.lookup m k := by
  induction l generalizing m with
  | nil => rw [List.foldl_nil, AssocMap.lookup_nil]
  | cons hd tl ih =>
      rw [List.map_cons, List.nodup_cons] at h
      rw [List.foldl_cons, ih _ h.2, AssocMap.lookup_cons]
      by_cases hk : hd.1 = k
      · subst hk
        rw [AssocMap.lookup_eq_none tl hd.1 h.1, if_pos rfl, AssocMap.lookup_insert_self]
      · rw [if_neg hk]
        cases hlt : AssocMap.lookup tl k with
        | some v => rfl
        | none => exact AssocMap.lookup_insert_ne m hd.1 k hd.2 (fun e => hk e.symm)

theorem mem_foldl_inter {α : Type} [DecidableEq α] (init : Finset α) (l : List (Finset α))
    (c : α) :
    c ∈ l.foldl (fun acc cap => acc ∩ cap) init ↔ c ∈ init ∧ ∀ s ∈ l, c ∈ s := by
  induction l generalizing init with
  | nil => simp
  | cons hd tl ih =>
      rw [List.foldl_cons, ih]
      simp [Finset.mem_inter, List.forall_mem_cons, and_assoc]

theorem lookupOverwrite_applyStorageEntry (acc : AssocMap H160 Overwrites) (a addr : H160)
    (sv : SlotId × U256) (slot : SlotId) :
    lookupOverwrite (applyStorageEntry acc a sv) addr slot =
      if addr = a ∧ slot = sv.1 then some sv.2 else lookupOverwrite acc addr slot := by
  by_cases ha : addr = a
  · subst ha
    simp only [lookupOverwrite, applyStorageEntry, AssocMap.lookup_insert_self,
      AssocMap.lookup_insert]
    by_cases hs : slot = sv.1
    · simp [hs]
    · rw [if_neg (fun e : sv.1 = slot => hs e.symm), if_neg (fun e => hs e.2)]
      cases hacc : AssocMap.lookup acc addr with
      | none => simp [AssocMap.empty, AssocMap.lookup_nil]
      | some inner => simp
  · simp only [lookupOverwrite, applyStorageEntry]
    rw [AssocMap.lookup_insert_ne _ _ _ _ ha, if_neg (fun e => ha e.1)]

theorem isSome_foldl_applyStorageEntry (storage : List (SlotId × U256))
    (acc : AssocMap H160 Overwrites) (a addr : H160) (slot : SlotId) :
    (lookupOverwrite (storage.foldl (fun acc2 sv => applyStorageEntry acc2 a sv) acc)
        addr slot).isSome ↔
      (lookupOverwrite acc addr slot).isSome ∨ (addr = a ∧ ∃ v, (slot, v) ∈ storage) := by
  induction storage generalizing acc with
  | nil => simp
  | cons sv tl ih =>
      rw [List.foldl_cons, ih, lookupOverwrite_applyStorageEntry]
      by_cases hP : addr = a ∧ slot = sv.1
      · rw [if_pos hP]
        constructor
        · intro _
          exact Or.inr ⟨hP.1, sv.2, by rw [hP.2]; exact List.mem_cons_self sv tl⟩
        · intro _
          exact Or.inl rfl
      · rw [if_neg hP]
        constructor
        · rintro (hs | ⟨ha, v, hv⟩)
          · exact Or.inl hs
          · exact Or.inr ⟨ha, v, List.mem_cons_of_mem sv hv⟩
        · rintro (hs | ⟨ha, v, hv⟩)
          · exact Or.inl hs
          · rcases List.mem_cons.mp hv with heq | hmem
            · exact absurd ⟨ha, congrArg Prod.fst heq⟩ hP
            · exact Or.inr ⟨ha, v, hmem⟩

theorem isSome_applyStateChanges (stateChanges : SwapStateChanges)
    (ow : AssocMap H160 Overwrites) (addr : H160) (slot : SlotId) :
    (lookupOverwrite (applyStateChanges ow stateChanges) addr slot).isSome ↔
      (lookupOverwrite ow addr slot).isSome ∨ diffHasKey stateChanges addr slot := by
  induction stateChanges generalizing ow with
  | nil => simp [applyStateChanges, diffHasKey]
  | cons ch cs ih =>
      obtain ⟨a, ost⟩ := ch
      cases ost with
      | none =>
          have hstep : applyStateChanges ow ((a, none) :: cs) = applyStateChanges ow cs := rfl
          rw [hstep, ih]
          have hdiff : diffHasKey ((a, (none : Option (List (SlotId × U256)))) :: cs)
              addr slot ↔ diffHasKey cs addr slot := by
            unfold diffHasKey
            constructor
            · rintro ⟨change, hmem, ha, storage, hst, hv⟩
              rcases List.mem_cons.mp hmem with heq | hmem2
              · rw [heq] at hst
                exact absurd hst (by simp)
              · exact ⟨change, hmem2, ha, storage, hst, hv⟩
            · rintro ⟨change, hmem, rest⟩
              exact ⟨change, List.mem_cons_of_mem _ hmem, rest⟩
          rw [hdiff]
      | some storage =>
          have hstep : applyStateChanges ow ((a, some storage) :: cs) =
              applyStateChanges
                (storage.foldl (fun acc2 sv => applyStorageEntry acc2 a sv) ow) cs := rfl
          rw [hstep, ih, isSome_foldl_applyStorageEntry]
          have hdiff : diffHasKey ((a, some storage) :: cs) addr slot ↔
              (addr = a ∧ ∃ v, (slot, v) ∈ storage) ∨ diffHasKey cs addr slot := by
            unfold diffHasKey
            constructor
            · rintro ⟨change, hmem, ha, st, hst, v, hv⟩
              rcases List.mem_cons.mp hmem with heq | hmem2
              · subst heq
                have hst2 : storage = st := by
                  simpa using hst
                exact Or.inl ⟨ha.symm, v, hst2 ▸ hv⟩
              · exact Or.inr ⟨change, hmem2, ha, st, hst, v, hv⟩
            · rintro (⟨ha, v, hv⟩ | ⟨change, hmem, rest⟩)
              · exact ⟨(a, some storage), List.mem_cons_self _ cs, ha.symm, storage, rfl, v, hv⟩
              · exact ⟨change, List.mem_cons_of_mem _ hmem, rest⟩
          rw [hdiff]
          tauto

theorem getStorage_updateAccount_ne (st : AccountStorage) (a addr : H160)
    (upd : StateUpdate) (slot : SlotId) (h : addr ≠ a) :
    (st.updateAccount a upd).getStorage addr slot = st.getStorage addr slot := by
  simp only [AccountStorage.updateAccount, AccountStorage.getStorage]
  rw [AssocMap.lookup_insert_ne _ _ _ _ h]

theorem getStorage_updateAccount_self (st : AccountStorage) (a : H160) (upd : StateUpdate)
    (slot : SlotId) (hS : ∀ l, upd.storage = some l → (l.map Prod.fst).Nodup) :
    (st.updateAccount a upd).getStorage a slot =
      match (match upd.storage with
             | none => none
             | some slots => AssocMap.lookup slots slot) with
      | some v => some v
      | none => st.getStorage a slot := by
  obtain ⟨ost, obal⟩ := upd
  cases ost with
  | none =>
      cases obal with
      | none =>
          simp only [AccountStorage.updateAccount, AccountStorage.getStorage,
            AssocMap.lookup_insert_self]
          cases hacc : AssocMap.lookup st.accounts a with
          | none => rfl
          | some acc0 => rfl
      | some b =>
          simp only [AccountStorage.updateAccount, AccountStorage.getStorage,
            AssocMap.lookup_insert_self]
          cases hacc : AssocMap.lookup st.accounts a with
          | none => rfl
          | some acc0 => rfl
  | some slots =>
      have hnd : (slots.map Prod.fst).Nodup := hS slots rfl
      cases obal with
      | none =>
          simp only [AccountStorage.updateAccount, AccountStorage.getStorage,
            AssocMap.lookup_insert_self]
          rw [AssocMap.lookup_foldl_insert _ _ _ hnd]
          cases hsl : AssocMap.lookup slots slot with
          | some v => rfl
          | none =>
              cases hacc : AssocMap.lookup st.accounts a with
              | none => rfl
              | some acc0 => rfl
      | some b =>
          simp only [AccountStorage.updateAccount, AccountStorage.getStorage,
            AssocMap.lookup_insert_self]
          rw [AssocMap.lookup_foldl_insert _ _ _ hnd]
          cases hsl : AssocMap.lookup slots slot with
          | some v => rfl
          | none =>
              cases hacc : AssocMap.lookup st.accounts a with
              | none => rfl
              | some acc0 => rfl

theorem getStorage_foldl_updates_not_mem (us : List (H160 × AccountUpdate))
    (st : AccountStorage) (addr : H160) (slot : SlotId)
    (h : addr ∉ us.map Prod.fst) :
    ((us.foldl
        (fun s au => s.updateAccount au.1 { storage := au.2.slots, balance := au.2.balance })
        st).getStorage addr slot) = st.getStorage addr slot := by
  induction us generalizing st with
  | nil => rfl
  | cons u rest ih =>
      have h1 : addr ≠ u.1 := by
        intro e
        exact h (by rw [List.map_cons, e]; exact List.mem_cons_self _ _)
      have h2 : addr ∉ rest.map Prod.fst := by
        intro hm
        exact h (by rw [List.map_cons]; exact List.mem_cons_of_mem _ hm)
      rw [List.foldl_cons, ih _ h2, getStorage_updateAccount_ne _ _ _ _ _ h1]

theorem getStorage_foldl_updates (us : List (H160 × AccountUpdate)) (st : AccountStorage)
    (addr : H160) (slot : SlotId) (hA : (us.map Prod.fst).Nodup)
    (hS : ∀ au ∈ us, ∀ l, au.2.slots = some l → (l.map Prod.fst).Nodup) :
    ((us.foldl
        (fun s au => s.updateAccount au.1 { storage := au.2.slots, balance := au.2.balance })
        st).getStorage addr slot) =
      match updatesSlotValue us addr slot with
      | some v => some v
      | none => st.getStorage addr slot := by
  induction us generalizing st with
  | nil => rfl
  | cons u rest ih =>
      rw [List.map_cons, List.nodup_cons] at hA
      rw [List.foldl_cons]
      by_cases hu : u.1 = addr
      · have hmem : addr ∉ rest.map Prod.fst := hu ▸ hA.1
        rw [getStorage_foldl_updates_not_mem rest _ addr slot hmem]
        have hself : (st.updateAccount u.1
              { storage := u.2.slots, balance := u.2.balance }).getStorage addr slot =
            match (match u.2.slots with
                   | none => none
                   | some slots => AssocMap.lookup slots slot) with
            | some v => some v
            | none => st.getStorage addr slot := by
          rw [hu] at *
          exact getStorage_updateAccount_self st addr _ slot
            (fun l hl => hS u (List.mem_cons_self u rest) l hl)
        rw [hself]
        have hfind : updatesSlotValue (u :: rest) addr slot =
            match u.2.slots with
            | none => none
            | some slots => AssocMap.lookup slots slot := by
          unfold updatesSlotValue
          rw [List.find?_cons_of_pos _ (by simpa using hu)]
          rfl
        rw [hfind]
      · have hfind : updatesSlotValue (u :: rest) addr slot =
            updatesSlotValue rest addr slot := by
          unfold updatesSlotValue
          rw [List.find?_cons_of_neg _ (by simpa using hu)]
        rw [hfind, ih _ hA.2 (fun au hm l hl => hS au (List.mem_cons_of_mem u hm) l hl),
          getStorage_updateAccount_ne _ _ _ _ _ (fun e => hu e.symm)]

/-- Claim C3: in `get_amount_out` the adapter's `swap` is invoked with the
original sell amount, except that when `HardLimits` is among the pool's
capabilities and the sell amount is strictly greater than the queried sell
limit, `swap` is invoked with the limit and the exceeded flag is set; when
`HardLimits` is absent no clamping occurs for any sell amount. -/
theorem getAmountOut_swap_input (s : VMPoolState) (sellToken : H160) (sellAmount : U256)
    (buyToken : H160) (adapter : AdapterContract) :
    getAmountOut s sellToken sellAmount buyToken adapter =
      applySwapResult s sellToken buyToken
        (clampToLimit s.capabilities sellAmount adapter.sellAmountLimit).2
        (adapter.swap (clampToLimit s.capabilities sellAmount adapter.sellAmountLimit).1) ∧
    (Capability.HardLimits ∈ s.capabilities → adapter.sellAmountLimit < sellAmount →
      clampToLimit s.capabilities sellAmount adapter.sellAmountLimit =
        (adapter.sellAmountLimit, true)) ∧
    (Capability.HardLimits ∉ s.capabilities →
      clampToLimit s.capabilities sellAmount adapter.sellAmountLimit =
        (sellAmount, false)) ∧
    (sellAmount ≤ adapter.sellAmountLimit →
      clampToLimit s.capabilities sellAmount adapter.sellAmountLimit =
        (sellAmount, false)) := by
  refine ⟨rfl, ?_, ?_, ?_⟩
  · intro h1 h2
    rw [clampToLimit, if_pos ⟨h1, h2⟩]
  · intro h1
    rw [clampToLimit, if_neg (fun hc => h1 hc.1)]
  · intro h1
    rw [clampToLimit, if_neg (fun hc => absurd hc.2 (not_lt.mpr h1))]

/-- Witness for claim C3 at a concrete pool without `HardLimits`. -/
theorem getAmountOut_swap_input_witness :
    clampToLimit basePool.capabilities 10 smallLimitAdapter.sellAmountLimit = (10, false) :=
  (getAmountOut_swap_input basePool 1 10 2 smallLimitAdapter).2.2.1 (by decide)

/-- Claim C1 (counterexample): a clamped call returns the bare
`SellAmountTooHigh` error — the whole result of `get_amount_out` is the
payload-free error constructor, so no partial buy amount, gas or new state
reaches the caller (the source comments the payload out). -/
theorem getAmountOut_sellAmountTooHigh_cex :
    getAmountOut hardLimitsPool 1 10 2 smallLimitAdapter =
      Except.error SimulationError.sellAmountTooHigh := by
  decide

/-- Claim C1 (amended): whenever the sell amount was clamped to the limit
(`HardLimits` held and the limit is below the sell amount), `get_amount_out`
returns `Err(SellAmountTooHigh())` with no payload; the computed partial
result is discarded, not returned alongside the error. -/
theorem getAmountOut_sellAmountTooHigh (s : VMPoolState) (sellToken : H160)
    (sellAmount : U256) (buyToken : H160) (adapter : AdapterContract)
    (h1 : Capability.HardLimits ∈ s.capabilities)
    (h2 : adapter.sellAmountLimit < sellAmount) :
    getAmountOut s sellToken sellAmount buyToken adapter =
      Except.error SimulationError.sellAmountTooHigh := by
  show applySwapResult s sellToken buyToken
      (clampToLimit s.capabilities sellAmount adapter.sellAmountLimit).2
      (adapter.swap (clampToLimit s.capabilities sellAmount adapter.sellAmountLimit).1) =
    Except.error SimulationError.sellAmountTooHigh
  rw [clampToLimit, if_pos ⟨h1, h2⟩]
  rfl

/-- Witness for claim C1 at a concrete clamped call. -/
theorem getAmountOut_sellAmountTooHigh_witness :
    Capability.HardLimits ∈ hardLimitsPool.capabilities ∧
    smallLimitAdapter.sellAmountLimit < 10 ∧
    getAmountOut hardLimitsPool 3 10 4 smallLimitAdapter =
      Except.error SimulationError.sellAmountTooHigh :=
  ⟨by decide, by decide,
   getAmountOut_sellAmountTooHigh hardLimitsPool 3 10 4 smallLimitAdapter
     (by decide) (by decide)⟩

/-- Claim C8: `set_spot_prices` requires the `PriceFunction` capability —
without it the call returns the capability-not-found error and the pool
state is returned completely unchanged. -/
theorem setSpotPrices_requires_priceFunction (s : VMPoolState) (tokens : List ERC20Token)
    (oracle : SpotPriceOracle) (h : Capability.PriceFunction ∉ s.capabilities) :
    setSpotPrices s tokens oracle =
      (s, some (SimulationError.notFound "capability \"PriceFunction\"")) := by
  rw [setSpotPrices, ensureCapability, if_pos h]
  rfl

/-- Witness for claim C8 at a concrete pool without `PriceFunction`. -/
theorem setSpotPrices_requires_priceFunction_witness :
    setSpotPrices basePool [] constantSpotOracle =
      (basePool, some (SimulationError.notFound "capability \"PriceFunction\"")) :=
  setSpotPrices_requires_priceFunction basePool [] constantSpotOracle (by decide)

/-- Claim C9: with fewer than two tokens the per-pair capability list is
empty, so `set_capabilities` — and with it `new` — hits the out-of-bounds
`capabilities[0]` access and panics (modelled as `none`) instead of
returning a pool state or an error. -/
theorem setCapabilities_panics_short_tokens (tokens : List H160)
    (getCaps : H160 → H160 → Finset Capability) (id : String) (blockNumber : Nat)
    (balances : AssocMap H160 U256) (balanceOwner : Option H160)
    (involvedContracts : List H160) (manualUpdates trace : Bool)
    (h : tokens.length < 2) :
    orderedPairs tokens = [] ∧ setCapabilities tokens getCaps = none ∧
    newVMPoolState id tokens blockNumber balances balanceOwner involvedContracts
      manualUpdates trace getCaps = none := by
  have hop : orderedPairs tokens = [] := by
    cases tokens with
    | nil => rfl
    | cons a tl =>
        cases tl with
        | nil => rfl
        | cons b t =>
            exfalso
            simp only [List.length_cons] at h
            omega
  have hsc : setCapabilities tokens getCaps = none := by
    rw [setCapabilities, hop]
    rfl
  refine ⟨hop, hsc, ?_⟩
  rw [newVMPoolState, hsc]

/-- Witness for claim C9 at a concrete single-token pool. -/
theorem setCapabilities_panics_short_tokens_witness :
    orderedPairs ([7] : List H160) = [] ∧
    setCapabilities [7] constantCapsOracle = none ∧
    newVMPoolState "0xdead" [7] 1 [] none [] false false constantCapsOracle = none :=
  setCapabilities_panics_short_tokens [7] constantCapsOracle "0xdead" 1 [] none [] false
    false (by decide)

/-- Claim C10: the `ProtocolSim` equality of a VM pool state holds exactly
against another VM pool state with the same id string — all other fields
and all non-`VMPoolState` implementors are ignored. -/
theorem protocolEq_compares_only_id (s : VMPoolState) (other : ProtocolSimBox) :
    s.protocolEq other = true ↔
      ∃ p, other = ProtocolSimBox.vmPool p ∧ s.id = p.id := by
  cases other with
  | vmPool p => simp [VMPoolState.protocolEq]
  | otherProtocol t => simp [VMPoolState.protocolEq]

/-- Witness for claim C10: equal ids with different balances compare equal;
a non-`VMPoolState` value compares unequal. -/
theorem protocolEq_compares_only_id_witness :
    basePool.protocolEq (ProtocolSimBox.vmPool { basePool with balances := [] }) = true ∧
    basePool.balances ≠ ([] : AssocMap H160 U256) ∧
    basePool.protocolEq (ProtocolSimBox.otherProtocol "uniswap_v2") = false :=
  ⟨(protocolEq_compares_only_id basePool
      (ProtocolSimBox.vmPool { basePool with balances := [] })).mpr
    ⟨{ basePool with balances := [] }, rfl, rfl⟩,
   by decide, rfl⟩

/-- Claim C4: after initialization the stored capability set equals the
intersection of the `getCapabilities` results over every ordered pair of
distinct tokens, and the warning fires exactly when that intersection is
smaller (in cardinality) than the largest single-pair capability set. -/
theorem setCapabilities_intersects (tokens : List H160)
    (getCaps : H160 → H160 → Finset Capability) (stored : Finset Capability)
    (warned : Bool) (h : setCapabilities tokens getCaps = some (stored, warned)) :
    (∀ c, c ∈ stored ↔ ∀ pr ∈ orderedPairs tokens, c ∈ getCaps pr.1 pr.2) ∧
    (warned = true ↔
      stored.card <
        (((orderedPairs tokens).map (fun p => getCaps p.1 p.2)).map Finset.card).foldr
          max 0) := by
  rw [setCapabilities] at h
  cases hh : ((orderedPairs tokens).map (fun p => getCaps p.1 p.2)).head? with
  | none =>
      rw [hh] at h
      exact absurd h (by simp)
  | some first =>
      rw [hh] at h
      have hmem : first ∈ (orderedPairs tokens).map (fun p => getCaps p.1 p.2) :=
        List.mem_of_mem_head? hh
      have hpair := Option.some.inj h
      have hst := congrArg Prod.fst hpair
      have hwa := congrArg Prod.snd hpair
      simp only [] at hst hwa
      refine ⟨?_, ?_⟩
      · intro c
        rw [← hst, mem_foldl_inter]
        constructor
        · rintro ⟨hc1, hc2⟩ pr hpr
          exact hc2 _ (List.mem_map_of_mem _ hpr)
        · intro hall
          obtain ⟨pr0, hpr0, hfirst⟩ := List.mem_map.mp hmem
          refine ⟨hfirst ▸ hall pr0 hpr0, ?_⟩
          intro sset hset
          obtain ⟨pr, hpr, hw⟩ := List.mem_map.mp hset
          exact hw ▸ hall pr hpr
      · rw [← hwa, hst]
        simp

/-- Witness for claim C4 at a concrete two-token pool with a constant
capability oracle. -/
theorem setCapabilities_intersects_witness :
    (∀ c, c ∈ ({Capability.SellSide} : Finset Capability) ↔
        ∀ pr ∈ orderedPairs [(1 : H160), 2], c ∈ constantCapsOracle pr.1 pr.2) ∧
    ((false = true) ↔
      ({Capability.SellSide} : Finset Capability).card <
        (((orderedPairs [(1 : H160), 2]).map
            (fun p => constantCapsOracle p.1 p.2)).map Finset.card).foldr max 0) :=
  setCapabilities_intersects [1, 2] constantCapsOracle {Capability.SellSide} false
    (by decide)

/-- Claim C6: `storage(addr, slot)` returns the stored word when present;
otherwise it fails with `MissingMockedSlot` when the account at `addr` is
mocked and with `MissingSlot` otherwise (including an unknown account) —
and the outcome depends only on the account stored at `addr`, never on what
any other account holds at the same slot. -/
theorem tychoDB_storage_spec (db : TychoDB) (addr : H160) (slot : SlotId) :
    (∀ v, db.accountStorage.getStorage addr slot = some v →
        db.storage addr slot = Except.ok v) ∧
    (db.accountStorage.getStorage addr slot = none →
      db.accountStorage.isMockedAccount addr = some true →
        db.storage addr slot = Except.error (TychoDBError.missingMockedSlot addr slot)) ∧
    (db.accountStorage.getStorage addr slot = none →
      db.accountStorage.isMockedAccount addr ≠ some true →
        db.storage addr slot = Except.error (TychoDBError.missingSlot addr slot)) ∧
    (∀ db2 : TychoDB,
      AssocMap.lookup db2.accountStorage.accounts addr =
          AssocMap.lookup db.accountStorage.accounts addr →
        db2.storage addr slot = db.storage addr slot) := by
  refine ⟨?_, ?_, ?_, ?_⟩
  · intro v hv
    simp only [TychoDB.storage, hv]
  · intro h1 h2
    simp only [TychoDB.storage, h1, h2]
  · intro h1 h2
    simp only [TychoDB.storage, h1]
  · intro db2 hacc
    have h1 : db2.accountStorage.getStorage addr slot =
        db.accountStorage.getStorage addr slot := by
      simp only [AccountStorage.getStorage, hacc]
    have h2 : db2.accountStorage.isMockedAccount addr =
        db.accountStorage.isMockedAccount addr := by
      simp only [AccountStorage.isMockedAccount, hacc]
    simp only [TychoDB.storage, h1, h2]

/-- Witness for claim C6: on the concrete `mixedDB`, a missing slot on the
mocked account 11 yields `MissingMockedSlot`, a present slot on account 12
is served, and a missing slot on the unknown account 99 yields
`MissingSlot`. -/
theorem tychoDB_storage_spec_witness :
    TychoDB.storage mixedDB 11 7 =
      Except.error (TychoDBError.missingMockedSlot 11 7) ∧
    TychoDB.storage mixedDB 12 7 = Except.ok 9 ∧
    TychoDB.storage mixedDB 99 7 = Except.error (TychoDBError.missingSlot 99 7) :=
  ⟨(tychoDB_storage_spec mixedDB 11 7).2.1 (by decide) (by decide),
   (tychoDB_storage_spec mixedDB 12 7).1 9 (by decide),
   (tychoDB_storage_spec mixedDB 99 7).2.2.1 (by decide) (by decide)⟩

/-- Claim C5: after `update_state(delta)` the observed storage value at
every `(addr, slot)` equals `delta.account_updates[addr].slots[slot]` when
that entry is present and the pre-delta value otherwise, and the current
block becomes `delta.block`.  The hypotheses record that the Rust
`HashMap`s carry each address and each slot at most once. -/
theorem updateState_spec (db : TychoDB) (delta : BlockStateChanges) (addr : H160)
    (slot : SlotId) (hA : (delta.accountUpdates.map Prod.fst).Nodup)
    (hS : ∀ au ∈ delta.accountUpdates, ∀ l, au.2.slots = some l →
      (l.map Prod.fst).Nodup) :
    (db.updateState delta).block = some delta.block ∧
    (∀ v, deltaSlotValue delta addr slot = some v →
        (db.updateState delta).accountStorage.getStorage addr slot = some v) ∧
    (deltaSlotValue delta addr slot = none →
        (db.updateState delta).accountStorage.getStorage addr slot =
          db.accountStorage.getStorage addr slot) := by
  have hmain : (db.updateState delta).accountStorage.getStorage addr slot =
      match updatesSlotValue delta.accountUpdates addr slot with
      | some v => some v
      | none => db.accountStorage.getStorage addr slot :=
    getStorage_foldl_updates delta.accountUpdates db.accountStorage addr slot hA hS
  refine ⟨rfl, ?_, ?_⟩
  · intro v hv
    have hv2 : updatesSlotValue delta.accountUpdates addr slot = some v := hv
    rw [hmain, hv2]
  · intro hv
    have hv2 : updatesSlotValue delta.accountUpdates addr slot = none := hv
    rw [hmain, hv2]

/-- Witness for claim C5 on the concrete `mixedDB` and `sampleDelta`: the
block advances, the updated slot reads back the delta value and an
untouched slot keeps its pre-delta value. -/
theorem updateState_spec_witness :
    (mixedDB.updateState sampleDelta).block = some sampleDelta.block ∧
    ((mixedDB.updateState sampleDelta).accountStorage.getStorage 12 3 = some 42 ∧
      (mixedDB.updateState sampleDelta).accountStorage.getStorage 12 7 =
        mixedDB.accountStorage.getStorage 12 7) := by
  have hS : ∀ au ∈ sampleDelta.accountUpdates, ∀ l, au.2.slots = some l →
      (l.map Prod.fst).Nodup := by
    intro au hau l hl
    have hau2 : au = (12, { slots := some [(3, 42)], balance := some 1000 }) := by
      simpa [sampleDelta] using hau
    rw [hau2] at hl
    have hl2 : [(3, 42)] = l := Option.some.inj hl
    rw [← hl2]
    decide
  exact ⟨(updateState_spec mixedDB sampleDelta 11 0 (by decide) hS).1,
    (updateState_spec mixedDB sampleDelta 12 3 (by decide) hS).2.1 42 (by decide),
    (updateState_spec mixedDB sampleDelta 12 7 (by decide) hS).2.2 (by decide)⟩

/-- Claim C2 (counterexample): the inclusion of block-lasting overwrites is
not strict for every reported storage diff — here `swap` reports the
nonempty diff `5 ↦ (7 ↦ 9)`, an entry `overwrittenPool` already carries
with the same value, and the returned state's overwrites equal the
original's exactly. -/
theorem getAmountOut_copy_on_write_cex :
    getAmountOut overwrittenPool 1 10 2 rewritingAdapter =
      Except.ok { amount := 3, gas := 2, newState := overwrittenPool } ∧
    (rewritingAdapter.swap
        (clampToLimit overwrittenPool.capabilities 10
          rewritingAdapter.sellAmountLimit).1).2 ≠ ([] : SwapStateChanges) := by
  exact ⟨by decide, by decide⟩

/-- Claim C2 (amended): `get_amount_out` never mutates `self` (it is a pure
function of the state in this embedding, as the Rust method takes `&self`
and clones); on success the new state's block-lasting overwrites contain
every `(address, slot)` key of the original's, and the key set grows
strictly exactly when the swap diff mentions a key the original did not
carry — a diff that only re-writes already-present keys leaves the
inclusion non-strict. -/
theorem getAmountOut_copy_on_write (s : VMPoolState) (sellToken : H160)
    (sellAmount : U256) (buyToken : H160) (adapter : AdapterContract)
    (r : GetAmountOutResult)
    (h : getAmountOut s sellToken sellAmount buyToken adapter = Except.ok r) :
    (∀ addr slot, (lookupOverwrite s.blockLastingOverwrites addr slot).isSome →
        (lookupOverwrite r.newState.blockLastingOverwrites addr slot).isSome) ∧
    (∀ addr slot,
      (lookupOverwrite r.newState.blockLastingOverwrites addr slot).isSome ↔
        (lookupOverwrite s.blockLastingOverwrites addr slot).isSome ∨
          diffHasKey
            (adapter.swap
              (clampToLimit s.capabilities sellAmount adapter.sellAmountLimit).1).2
            addr slot) := by
  have h3 :
      (if (clampToLimit s.capabilities sellAmount adapter.sellAmountLimit).2 then
          Except.error SimulationError.sellAmountTooHigh
        else
          Except.ok
            { amount := (adapter.swap (clampToLimit s.capabilities sellAmount
                  adapter.sellAmountLimit).1).1.receivedAmount
              gas := (adapter.swap (clampToLimit s.capabilities sellAmount
                  adapter.sellAmountLimit).1).1.gasUsed
              newState :=
                { s with
                  blockLastingOverwrites :=
                    applyStateChanges s.blockLastingOverwrites
                      (adapter.swap (clampToLimit s.capabilities sellAmount
                        adapter.sellAmountLimit).1).2
                  spotPrices :=
                    updateSpotPrices s.spotPrices sellToken buyToken
                      (adapter.swap (clampToLimit s.capabilities sellAmount
                        adapter.sellAmountLimit).1).1.price } }) =
        Except.ok r := h
  have hns : r.newState.blockLastingOverwrites =
      applyStateChanges s.blockLastingOverwrites
        (adapter.swap (clampToLimit s.capabilities sellAmount
          adapter.sellAmountLimit).1).2 := by
    cases hflag : (clampToLimit s.capabilities sellAmount adapter.sellAmountLimit).2 with
    | true =>
        rw [hflag, if_pos rfl] at h3
        exact absurd h3 (by simp)
    | false =>
        rw [hflag, if_neg Bool.false_ne_true] at h3
        rw [← Except.ok.inj h3]
  refine ⟨?_, ?_⟩
  · intro addr slot hs
    rw [hns, isSome_applyStateChanges]
    exact Or.inl hs
  · intro addr slot
    rw [hns]
    exact isSome_applyStateChanges _ _ addr slot

/-- Witness for claim C2 at the concrete `overwrittenPool` call. -/
theorem getAmountOut_copy_on_write_witness :
    (∀ addr slot,
      (lookupOverwrite overwrittenPool.blockLastingOverwrites addr slot).isSome →
        (lookupOverwrite ({ amount := 3, gas := 2, newState := overwrittenPool } :
            GetAmountOutResult).newState.blockLastingOverwrites addr slot).isSome) ∧
    (∀ addr slot,
      (lookupOverwrite ({ amount := 3, gas := 2, newState := overwrittenPool } :
          GetAmountOutResult).newState.blockLastingOverwrites addr slot).isSome ↔
        (lookupOverwrite overwrittenPool.blockLastingOverwrites addr slot).isSome ∨
          diffHasKey
            (rewritingAdapter.swap
              (clampToLimit overwrittenPool.capabilities 10
                rewritingAdapter.sellAmountLimit).1).2
            addr slot) :=
  getAmountOut_copy_on_write overwrittenPool 1 10 2 rewritingAdapter
    { amount := 3, gas := 2, newState := overwrittenPool } (by decide)

/-- Claim C7 (counterexample): when `sell_token = buy_token` the second
spot-price insert lands on the same key as the first, so the returned state
holds `1 / trade.price` — not `trade.price` — at `(sell_token, buy_token)`
even though the reported price (2) is nonzero. -/
theorem getAmountOut_spotPrices_cex :
    (getAmountOut basePool 1 4 1 pricedAdapter).toOption.map
        (fun r => AssocMap.lookup r.newState.spotPrices (1, 1)) =
      some (some ((1 : ℚ) / 2)) ∧
    (pricedAdapter.swap 4).1.price = 2 ∧ ((1 : ℚ) / 2) ≠ 2 := by
  refine ⟨rfl, rfl, by norm_num⟩

/-- Claim C7 (amended): on a successful call with distinct sell and buy
tokens, a nonzero reported price is stored at `(sell, buy)` and its
reciprocal at `(buy, sell)` in the returned state; a zero price leaves the
spot-price map equal to the original.  When the tokens coincide the second
insert overwrites the first, leaving `1 / price` at the single key. -/
theorem getAmountOut_spotPrices (s : VMPoolState) (sellToken : H160) (sellAmount : U256)
    (buyToken : H160) (adapter : AdapterContract) (r : GetAmountOutResult)
    (h : getAmountOut s sellToken sellAmount buyToken adapter = Except.ok r) :
    ((adapter.swap (clampToLimit s.capabilities sellAmount
        adapter.sellAmountLimit).1).1.price = 0 →
      r.newState.spotPrices = s.spotPrices) ∧
    (sellToken ≠ buyToken →
      (adapter.swap (clampToLimit s.capabilities sellAmount
          adapter.sellAmountLimit).1).1.price ≠ 0 →
        AssocMap.lookup r.newState.spotPrices (sellToken, buyToken) =
          some (adapter.swap (clampToLimit s.capabilities sellAmount
            adapter.sellAmountLimit).1).1.price ∧
        AssocMap.lookup r.newState.spotPrices (buyToken, sellToken) =
          some (1 / (adapter.swap (clampToLimit s.capabilities sellAmount
            adapter.sellAmountLimit).1).1.price)) := by
  have h3 :
      (if (clampToLimit s.capabilities sellAmount adapter.sellAmountLimit).2 then
          Except.error SimulationError.sellAmountTooHigh
        else
          Except.ok
            { amount := (adapter.swap (clampToLimit s.capabilities sellAmount
                  adapter.sellAmountLimit).1).1.receivedAmount
              gas := (adapter.swap (clampToLimit s.capabilities sellAmount
                  adapter.sellAmountLimit).1).1.gasUsed
              newState :=
                { s with
                  blockLastingOverwrites :=
                    applyStateChanges s.blockLastingOverwrites
                      (adapter.swap (clampToLimit s.capabilities sellAmount
                        adapter.sellAmountLimit).1).2
                  spotPrices :=
                    updateSpotPrices s.spotPrices sellToken buyToken
                      (adapter.swap (clampToLimit s.capabilities sellAmount
                        adapter.sellAmountLimit).1).1.price } }) =
        Except.ok r := h
  have hsp : r.newState.spotPrices =
      updateSpotPrices s.spotPrices sellToken buyToken
        (adapter.swap (clampToLimit s.capabilities sellAmount
          adapter.sellAmountLimit).1).1.price := by
    cases hflag : (clampToLimit s.capabilities sellAmount adapter.sellAmountLimit).2 with
    | true =>
        rw [hflag, if_pos rfl] at h3
        exact absurd h3 (by simp)
    | false =>
        rw [hflag, if_neg Bool.false_ne_true] at h3
        rw [← Except.ok.inj h3]
  refine ⟨?_, ?_⟩
  · intro hp
    rw [hsp, updateSpotPrices, if_neg (not_not_intro hp)]
  · intro hne hp
    rw [hsp, updateSpotPrices, if_pos hp]
    refine ⟨?_, ?_⟩
    · rw [AssocMap.lookup_insert_ne _ _ _ _ (fun e => hne (congrArg Prod.fst e)),
        AssocMap.lookup_insert_self]
    · rw [AssocMap.lookup_insert_self]

/-- Witness for claim C7 at a concrete call with distinct tokens and the
reported price 2. -/
theorem getAmountOut_spotPrices_witness :
    ((pricedAdapter.swap (clampToLimit basePool.capabilities 4
        pricedAdapter.sellAmountLimit).1).1.price = 0 →
      pricedResult.newState.spotPrices = basePool.spotPrices) ∧
    ((1 : H160) ≠ (2 : H160) →
      (pricedAdapter.swap (clampToLimit basePool.capabilities 4
          pricedAdapter.sellAmountLimit).1).1.price ≠ 0 →
        AssocMap.lookup pricedResult.newState.spotPrices (1, 2) =
          some (pricedAdapter.swap (clampToLimit basePool.capabilities 4
            pricedAdapter.sellAmountLimit).1).1.price ∧
        AssocMap.lookup pricedResult.newState.spotPrices (2, 1) =
          some (1 / (pricedAdapter.swap (clampToLimit basePool.capabilities 4
            pricedAdapter.sellAmountLimit).1).1.price)) :=
  getAmountOut_spotPrices basePool 1 4 2 pricedAdapter pricedResult (by rfl)
